import Mathlib

/-! A verification model of `scripts/set_core_version.py`, the release-version
synchronization tool.  File text is modelled as `List Char` (text-mode content
after universal-newline translation); JSON manifests are modelled as parsed
`Json` documents, since the script round-trips them through `json.loads` /
`json.dump` (CPython's serializer is deterministic and is inverted by its
parser on its own output, so document equality captures byte equality of the
serialized text, which is also rendered explicitly by `renderJson`). -/

namespace SetCoreVersion

/-- Characters Python's regex `\s` treats as whitespace (ASCII range; the
manifests the script handles are ASCII). -/
def isPySpace (c : Char) : Bool :=
  c == ' ' || c == '\t' || c == '\n' || c == '\r' || c == Char.ofNat 11 || c == Char.ofNat 12

/-- The literal part of the pattern `rex = re.compile(r'version = "(\S+)"')`:
the eleven characters `version = "`. -/
def versionLit : List Char := "version = \"".toList

/-- Index of the last `"` in `w`, if any. -/
def lastQuoteIdx (w : List Char) : Option Nat :=
  match w.reverse.findIdx? (fun c => c == '"') with
  | some k => some (w.length - 1 - k)
  | none => none

/-- Semantics of `rex.match(line)` followed by `.group(1)`: the line must start
with the literal `version = "`, then one or more non-whitespace characters
(greedy, so the group extends to the last `"` inside the maximal run of
non-whitespace characters that follows the literal), then `"`. -/
def rexMatch (line : List Char) : Option (List Char) :=
  if versionLit.isPrefixOf line then
    let w := (line.drop versionLit.length).takeWhile (fun c => !isPySpace c)
    match lastQuoteIdx w with
    | some i => if 1 ≤ i then some (w.take i) else none
    | none => none
  else none

/-- Split text into lines the way Python's file-line iteration does: every line
keeps its trailing newline; a final fragment lacking a newline is its own line;
empty text yields no lines. -/
def splitLinesAux : List Char → List Char → List (List Char)
  | [], acc => if acc = [] then [] else [acc.reverse]
  | c :: cs, acc =>
    if c = '\n' then (acc.reverse ++ ['\n']) :: splitLinesAux cs []
    else splitLinesAux cs (c :: acc)

def splitLines (content : List Char) : List (List Char) := splitLinesAux content []

def joinList (ls : List (List Char)) : List Char := ls.foldr (fun a b => a ++ b) []

/-- `regex_matches(relpath, rex)`: the match object of the first line of the
file on which `rex.match` succeeds (here directly its captured group). -/
def regex_matches (lines : List (List Char)) : Option (List Char) :=
  lines.findSome? rexMatch

/-- `read_toml_version(relpath)`: the captured group of the first matching
line; `none` models the raised `ValueError` when no line matches. -/
def read_toml_version (content : List Char) : Option (List Char) :=
  regex_matches (splitLines content)

/-- The replacement line `f'version = "{newversion}"\n'`. -/
def canonLine (v : String) : List Char := versionLit ++ v.toList ++ ['"', '\n']

/-- A `key = "value"`-shaped manifest line for an arbitrary key. -/
def mkKvLine (k val : String) : List Char :=
  k.toList ++ " = \"".toList ++ val.toList ++ ['"', '\n']

/-- Per-line behaviour of the rewrite loop in `replace_toml_version`. -/
def replaceLine (v : String) (l : List Char) : List Char :=
  if (rexMatch l).isSome then canonLine v else l

/-- `replace_toml_version(relpath, newversion)`: every line on which
`rex.match` succeeds is replaced by the canonical line; all other lines are
copied verbatim (the text is written to `<path>_tmp` and renamed back). -/
def replace_toml_version (content : List Char) (v : String) : List Char :=
  joinList ((splitLines content).map (replaceLine v))

/-- Parsed JSON documents (the manifests' numbers are integers; `json.loads`
of the package manifests never produces floats). -/
inductive Json where
  | jnull
  | jbool (b : Bool)
  | jnum (n : Int)
  | jstr (s : String)
  | jarr (xs : List Json)
  | jobj (kvs : List (String × Json))

def isObj : Json → Bool
  | .jobj _ => true
  | _ => false

def lookupKey (k : String) : List (String × Json) → Option Json
  | [] => none
  | (k', v) :: rest => if k' = k then some v else lookupKey k rest

def containsKey (k : String) (kvs : List (String × Json)) : Bool :=
  kvs.any (fun p => p.1 == k)

def repVersion (v : String) (p : String × Json) : String × Json :=
  if p.1 == "version" then ("version", Json.jstr v) else p

/-- `json_data["version"] = newversion` on a dict: replace the value in place
when the key exists, otherwise append the new key. -/
def setKvs (kvs : List (String × Json)) (v : String) : List (String × Json) :=
  if containsKey "version" kvs then kvs.map (repVersion v)
  else kvs ++ [("version", Json.jstr v)]

/-- `update_package_json` document transformation: `none` models the
`TypeError` Python raises when the parsed document is not a dict. -/
def update_package_json (j : Json) (v : String) : Option Json :=
  match j with
  | .jobj kvs => some (.jobj (setKvs kvs v))
  | _ => none

/-- `read_json_version(relpath)`: `json.loads(...)["version"]`; `none` models
the `KeyError` (missing field) or `TypeError` (non-dict document). -/
def read_json_version (j : Json) : Option Json :=
  match j with
  | .jobj kvs => lookupKey "version" kvs
  | _ => none

/-- Top-level field access on a parsed document (`json_data[k]`). -/
def jsonField (k : String) (j : Json) : Option Json :=
  match j with
  | .jobj kvs => lookupKey k kvs
  | _ => none

def hexDigit (n : Nat) : Char := if n < 10 then Char.ofNat (48 + n) else Char.ofNat (87 + n)

def uEscape (n : Nat) : List Char :=
  ['\\', 'u', hexDigit (n / 4096 % 16), hexDigit (n / 256 % 16), hexDigit (n / 16 % 16),
    hexDigit (n % 16)]

/-- Escaping of one character by `json.dump` (default `ensure_ascii=True`). -/
def escChar (c : Char) : List Char :=
  if c == '"' then ['\\', '"']
  else if c == '\\' then ['\\', '\\']
  else if c == '\n' then ['\\', 'n']
  else if c == '\t' then ['\\', 't']
  else if c == '\r' then ['\\', 'r']
  else if c == Char.ofNat 8 then ['\\', 'b']
  else if c == Char.ofNat 12 then ['\\', 'f']
  else if c.toNat < 32 then uEscape c.toNat
  else if c.toNat < 127 then [c]
  else if c.toNat < 65536 then uEscape c.toNat
  else uEscape (55296 + (c.toNat - 65536) / 1024) ++ uEscape (56320 + (c.toNat - 65536) % 1024)

def escString (s : String) : List Char := '"' :: s.toList.foldr (fun c acc => escChar c ++ acc) ['"']

def intToChars (n : Int) : List Char :=
  if n < 0 then '-' :: Nat.toDigits 10 n.natAbs else Nat.toDigits 10 n.natAbs

def pad (n : Nat) : List Char := List.replicate n ' '

def charsLe : List Char → List Char → Bool
  | [], _ => true
  | _ :: _, [] => false
  | a :: as, b :: bs =>
    if a.toNat < b.toNat then true else if b.toNat < a.toNat then false else charsLe as bs

def strLe (a b : String) : Bool := charsLe a.toList b.toList

def insertSorted (x : String × List Char) :
    List (String × List Char) → List (String × List Char)
  | [] => [x]
  | y :: ys => if strLe x.1 y.1 then x :: y :: ys else y :: insertSorted x ys

/-- The `sort_keys=True` ordering (Python sorts `str` by code point). -/
def sortPairs (l : List (String × List Char)) : List (String × List Char) :=
  l.foldr insertSorted []

def lbrace : Char := Char.ofNat 123

def rbrace : Char := Char.ofNat 125

def renderMember (ind : Nat) (p : String × List Char) : List Char :=
  pad ind ++ escString p.1 ++ ':' :: ' ' :: p.2

def renderMembers (ind : Nat) : List (String × List Char) → List Char
  | [] => []
  | [p] => renderMember ind p
  | p :: ps => renderMember ind p ++ ',' :: '\n' :: renderMembers ind ps

mutual
/-- Rendering of `json.dump(x, f, sort_keys=True, indent=2)`. -/
def renderJson : Nat → Json → List Char
  | _, .jnull => "null".toList
  | _, .jbool true => "true".toList
  | _, .jbool false => "false".toList
  | _, .jnum n => intToChars n
  | _, .jstr s => escString s
  | _, .jarr [] => ['[', ']']
  | ind, .jarr (x :: xs) =>
    '[' :: '\n' ::
      (pad (ind + 2) ++ renderJson (ind + 2) x ++ renderItems (ind + 2) xs ++
        '\n' :: (pad ind ++ [']']))
  | _, .jobj [] => [lbrace, rbrace]
  | ind, .jobj (kv :: kvs) =>
    lbrace :: '\n' ::
      (renderMembers (ind + 2) (sortPairs (renderPairs (ind + 2) (kv :: kvs))) ++
        '\n' :: (pad ind ++ [rbrace]))

def renderItems : Nat → List Json → List Char
  | _, [] => []
  | ind, x :: xs => ',' :: '\n' :: (pad ind ++ renderJson ind x ++ renderItems ind xs)

def renderPairs : Nat → List (String × Json) → List (String × List Char)
  | _, [] => []
  | ind, (k, v) :: rest => (k, renderJson ind v) :: renderPairs ind rest
end

/-- The bytes `update_package_json` writes: the dump plus `f.write("\n")`. -/
def renderJsonFile (j : Json) : List Char := renderJson 0 j ++ ['\n']

inductive FileOp where
  | writeFile (path : String) (content : List Char)
  | rename (src dst : String)
deriving DecidableEq

/-- File operations of `replace_toml_version`: write the rewritten text to the
sibling `<path>_tmp`, then `os.rename` it over the original. -/
def replaceTomlOps (path : String) (content : List Char) (v : String) : List FileOp :=
  [.writeFile (path ++ "_tmp") (replace_toml_version content v), .rename (path ++ "_tmp") path]

/-- File operations of `update_package_json`: a single direct truncating write
of the re-serialized document to the original path (`open(p, "w")`). -/
def updateJsonOps (path : String) (j : Json) (v : String) : Option (List FileOp) :=
  (update_package_json j v).map (fun j2 => [FileOp.writeFile path (renderJsonFile j2)])

/-- An operation sequence is an atomic swap onto `path` when it writes a
distinct temporary file and then renames that file over `path`. -/
def isAtomicSwapTo (path : String) (ops : List FileOp) : Bool :=
  match ops with
  | [FileOp.writeFile q _, FileOp.rename q' p'] => q == q' && p' == path && !(q == path)
  | _ => false

inductive RunError where
  | invalidVersionFormat
  | versionNotFound
  | versionMismatch
  | missingChangelogEntry
  | jsonNotObject
deriving DecidableEq

inductive Ev where
  | readTomlFile (i : Nat)
  | readChangelog
  | writeTomlFile (i : Nat)
  | writeJsonFile (i : Nat)
  | writeReleaseDate
deriving DecidableEq

/-- The filesystem state the script touches: the seven key-value manifests of
`toml_list` (index 0 = `Cargo.toml`, index 1 = `deltachat-ffi/Cargo.toml`), the
three JSON manifests of `json_list` (as parsed documents), `CHANGELOG.md`, and
the `release-date.in` marker. -/
structure FS where
  tomls : List (List Char)
  jsons : List Json
  changelog : List Char
  releaseDate : Option (List Char)

/-- `newversion.count(".")`. -/
def countDots (v : String) : Nat := (v.toList.filter (fun c => c == '.')).length

/-- Whether `pat` occurs as a contiguous subsequence of `text`. -/
def containsSeq (pat : List Char) : List Char → Bool
  | [] => pat.isEmpty
  | c :: cs => pat.isPrefixOf (c :: cs) || containsSeq pat cs

/-- `"alpha" in newversion`. -/
def alphaIn (v : String) : Bool := containsSeq "alpha".toList v.toList

/-- The exact changelog line `f"## [{newversion}] - {today}\n"`. -/
def changelogLine (v : String) (today : List Char) : List Char :=
  "## [".toList ++ v.toList ++ "] - ".toList ++ today ++ ['\n']

/-- The changelog scan of `main` (latched `found` flag over all lines). -/
def changelogHas (content : List Char) (v : String) (today : List Char) : Bool :=
  (splitLines content).any (fun l => l == changelogLine v today)

/-- The `update_package_json` loop of `main`: returns the resulting documents,
how many were rewritten, and whether all succeeded (Python raises `TypeError`
at the first non-dict document, leaving it and its successors unchanged). -/
def updateJsonsAux (v : String) : List Json → List Json × Nat × Bool
  | [] => ([], 0, true)
  | j :: js =>
    match update_package_json j v with
    | some j2 =>
      let r := updateJsonsAux v js
      (j2 :: r.1, r.2.1 + 1, r.2.2)
    | none => (j :: js, 0, false)

/-- The mutation phase of `main`: rewrite every key-value manifest, then the
JSON manifests (stopping where Python would raise), then the release-date
marker. -/
def proceedWrites (fs : FS) (v : String) (today : List Char) (evs : List Ev) :
    Option RunError × FS × List Ev :=
  let tomls2 := fs.tomls.map (fun c => replace_toml_version c v)
  let tEvs := (List.range fs.tomls.length).map Ev.writeTomlFile
  let r := updateJsonsAux v fs.jsons
  let jEvs := (List.range r.2.1).map Ev.writeJsonFile
  if r.2.2 then
    (none, { fs with tomls := tomls2, jsons := r.1, releaseDate := some today },
      evs ++ tEvs ++ jEvs ++ [Ev.writeReleaseDate])
  else
    (some .jsonNotObject, { fs with tomls := tomls2, jsons := r.1 }, evs ++ tEvs ++ jEvs)

/-- The orchestration of `main` after argument parsing, in source order:
dot-count validation, read of the two primary manifests, the consistency
`assert`, the changelog gate (skipped for versions containing "alpha"), then
the writes.  The result carries the error (if any), the final filesystem
state, and the trace of file events. -/
def runMain (fs : FS) (v : String) (today : List Char) : Option RunError × FS × List Ev :=
  if countDots v < 2 then (some .invalidVersionFormat, fs, [])
  else
    match read_toml_version (fs.tomls.getD 0 []) with
    | none => (some .versionNotFound, fs, [.readTomlFile 0])
    | some core =>
      match read_toml_version (fs.tomls.getD 1 []) with
      | none => (some .versionNotFound, fs, [.readTomlFile 0, .readTomlFile 1])
      | some ffi =>
        if core = ffi then
          if alphaIn v then proceedWrites fs v today [.readTomlFile 0, .readTomlFile 1]
          else if changelogHas fs.changelog v today then
            proceedWrites fs v today [.readTomlFile 0, .readTomlFile 1, .readChangelog]
          else
            (some .missingChangelogEntry, fs, [.readTomlFile 0, .readTomlFile 1, .readChangelog])
        else (some .versionMismatch, fs, [.readTomlFile 0, .readTomlFile 1])

/-! ### Structure of line splitting and joining -/

theorem joinList_nil : joinList [] = [] := rfl

theorem joinList_cons (l : List Char) (ls : List (List Char)) :
    joinList (l :: ls) = l ++ joinList ls := rfl

theorem joinList_splitLinesAux : ∀ (cs acc : List Char),
    joinList (splitLinesAux cs acc) = acc.reverse ++ cs := by
  intro cs
  induction cs with
  | nil =>
    intro acc
    by_cases h : acc = [] <;> simp [splitLinesAux, h, joinList]
  | cons c cs ih =>
    intro acc
    by_cases h : c = '\n'
    · subst h
      simp [splitLinesAux, joinList_cons, ih]
    · simp [splitLinesAux, h, ih (c :: acc)]

theorem joinList_splitLines (c : List Char) : joinList (splitLines c) = c := by
  simpa using joinList_splitLinesAux c []

/-- Well-formed output of `splitLines`: all lines but the last end with a
newline and contain none elsewhere; a final unterminated fragment is nonempty
and newline-free. -/
inductive LinesOf : List (List Char) → Prop where
  | nil : LinesOf []
  | last (l : List Char) : l ≠ [] → '\n' ∉ l → LinesOf [l]
  | cons (l : List Char) (ls : List (List Char)) (m : List Char) :
      '\n' ∉ m → l = m ++ ['\n'] → LinesOf ls → LinesOf (l :: ls)

theorem linesOf_splitLinesAux : ∀ (cs acc : List Char), '\n' ∉ acc →
    LinesOf (splitLinesAux cs acc) := by
  intro cs
  induction cs with
  | nil =>
    intro acc h
    by_cases he : acc = []
    · simp [splitLinesAux, he]
      exact LinesOf.nil
    · simp [splitLinesAux, he]
      exact LinesOf.last _ (by simpa using he) (by simpa using h)
  | cons c cs ih =>
    intro acc h
    by_cases hc : c = '\n'
    · subst hc
      simp only [splitLinesAux, if_pos rfl]
      exact LinesOf.cons _ _ acc.reverse (by simpa using h) rfl (ih [] (by simp))
    · simp only [splitLinesAux, if_neg hc]
      exact ih (c :: acc) (by simp [h, Ne.symm hc])

theorem linesOf_splitLines (c : List Char) : LinesOf (splitLines c) :=
  linesOf_splitLinesAux c [] (by simp)

theorem splitLinesAux_term (rest : List Char) : ∀ (m acc : List Char), '\n' ∉ m →
    splitLinesAux (m ++ '\n' :: rest) acc =
      ((acc.reverse ++ m) ++ ['\n']) :: splitLinesAux rest [] := by
  intro m
  induction m with
  | nil => intro acc h; simp [splitLinesAux]
  | cons c m ih =>
    intro acc h
    have hc : c ≠ '\n' := fun he => h (he ▸ List.mem_cons_self c m)
    have hm : '\n' ∉ m := fun hm => h (List.mem_cons_of_mem c hm)
    simp only [List.cons_append, splitLinesAux, if_neg hc, List.append_eq]
    rw [ih (c :: acc) hm]
    simp

theorem splitLinesAux_open : ∀ (m acc : List Char), '\n' ∉ m → acc.reverse ++ m ≠ [] →
    splitLinesAux m acc = [acc.reverse ++ m] := by
  intro m
  induction m with
  | nil =>
    intro acc _ hne
    have : acc ≠ [] := by simpa using hne
    simp [splitLinesAux, this]
  | cons c m ih =>
    intro acc h _
    have hc : c ≠ '\n' := fun he => h (he ▸ List.mem_cons_self c m)
    have hm : '\n' ∉ m := fun hm => h (List.mem_cons_of_mem c hm)
    simp only [splitLinesAux, if_neg hc]
    rw [ih (c :: acc) hm (by simp)]
    simp

theorem splitLines_joinList {ls : List (List Char)} (h : LinesOf ls) :
    splitLines (joinList ls) = ls := by
  induction h with
  | nil => rfl
  | last l hne hnl =>
    have : joinList [l] = l := by simp [joinList]
    rw [this]
    unfold splitLines
    rw [splitLinesAux_open l [] hnl (by simpa using hne)]
    simp
  | cons l ls m hm hl hls ih =>
    subst hl
    rw [joinList_cons]
    unfold splitLines
    have : (m ++ ['\n']) ++ joinList ls = m ++ '\n' :: joinList ls := by simp
    rw [this, splitLinesAux_term (joinList ls) m [] hm]
    simp only [List.reverse_nil, List.nil_append]
    exact congrArg _ ih

/-- Mapping a line-shape-preserving function over well-formed lines preserves
well-formedness. -/
theorem linesOf_map {ls : List (List Char)} (g : List Char → List Char) (h : LinesOf ls)
    (hterm : ∀ m : List Char, '\n' ∉ m →
      ∃ m2, '\n' ∉ m2 ∧ g (m ++ ['\n']) = m2 ++ ['\n'])
    (hopen : ∀ l : List Char, l ≠ [] → '\n' ∉ l →
      (g l ≠ [] ∧ '\n' ∉ g l) ∨ ∃ m2, '\n' ∉ m2 ∧ g l = m2 ++ ['\n']) :
    LinesOf (ls.map g) := by
  induction h with
  | nil => exact LinesOf.nil
  | last l hne hnl =>
    rcases hopen l hne hnl with ⟨h1, h2⟩ | ⟨m2, hm2, he⟩
    · exact LinesOf.last _ h1 h2
    · exact LinesOf.cons _ _ m2 hm2 he LinesOf.nil
  | cons l ls m hm hl hls ih =>
    subst hl
    rcases hterm m hm with ⟨m2, hm2, he⟩
    exact LinesOf.cons _ _ m2 hm2 he ih

/-! ### The key-value rewrite loop -/

theorem canonLine_eq (v : String) :
    canonLine v = (versionLit ++ v.toList ++ ['"']) ++ ['\n'] := by
  simp [canonLine]

theorem nl_not_mem_canonCore {v : String} (hv : '\n' ∉ v.toList) :
    '\n' ∉ versionLit ++ v.toList ++ ['"'] := by
  intro h
  rcases List.mem_append.1 h with h1 | h2
  · rcases List.mem_append.1 h1 with h3 | h4
    · revert h3; decide
    · exact hv h4
  · revert h2; decide

theorem replaceLine_cases (v : String) (l : List Char) :
    replaceLine v l = l ∨ replaceLine v l = canonLine v := by
  unfold replaceLine
  by_cases h : (rexMatch l).isSome = true
  · right; simp [h]
  · left; simp [h]

theorem replaceLine_idem (v : String) (l : List Char) :
    replaceLine v (replaceLine v l) = replaceLine v l := by
  by_cases h : (rexMatch l).isSome = true
  · simp only [replaceLine, h, if_true]
    exact ite_self _
  · simp [replaceLine, h]

theorem linesOf_map_replaceLine {ls : List (List Char)} {v : String}
    (h : LinesOf ls) (hv : '\n' ∉ v.toList) : LinesOf (ls.map (replaceLine v)) := by
  refine linesOf_map (replaceLine v) h ?_ ?_
  · intro m hm
    rcases replaceLine_cases v (m ++ ['\n']) with he | he
    · exact ⟨m, hm, he⟩
    · exact ⟨versionLit ++ v.toList ++ ['"'], nl_not_mem_canonCore hv, by rw [he, canonLine_eq]⟩
  · intro l hne hnl
    rcases replaceLine_cases v l with he | he
    · exact Or.inl ⟨by rw [he]; exact hne, by rw [he]; exact hnl⟩
    · exact Or.inr ⟨versionLit ++ v.toList ++ ['"'], nl_not_mem_canonCore hv, by rw [he, canonLine_eq]⟩

/-- Re-reading the rewritten file yields exactly the per-line image of the
original lines, provided the new version contains no newline. -/
theorem splitLines_replace (content : List Char) {v : String} (hv : '\n' ∉ v.toList) :
    splitLines (replace_toml_version content v) = (splitLines content).map (replaceLine v) := by
  unfold replace_toml_version
  exact splitLines_joinList (linesOf_map_replaceLine (linesOf_splitLines content) hv)

/-! ### The structured-document (JSON) update -/

theorem repVersion_fst (v : String) (p : String × Json) : (repVersion v p).1 = p.1 := by
  unfold repVersion
  by_cases h : p.1 == "version"
  · simp only [h, if_true]
    exact (eq_of_beq h).symm
  · simp [h]

theorem repVersion_idem (v : String) (p : String × Json) :
    repVersion v (repVersion v p) = repVersion v p := by
  unfold repVersion
  by_cases h : p.1 == "version" <;> simp [h]

theorem containsKey_map_rep (v : String) (kvs : List (String × Json)) :
    containsKey "version" (kvs.map (repVersion v)) = containsKey "version" kvs := by
  induction kvs with
  | nil => rfl
  | cons p rest ih =>
    simp only [containsKey, List.map_cons, List.any_cons] at *
    rw [repVersion_fst, ih]

theorem lookupKey_append (k : String) (a b : List (String × Json)) :
    lookupKey k (a ++ b) =
      match lookupKey k a with
      | some x => some x
      | none => lookupKey k b := by
  induction a with
  | nil => simp [lookupKey]
  | cons p rest ih =>
    obtain ⟨k', w⟩ := p
    by_cases h : k' = k <;> simp [lookupKey, h, ih]

theorem lookupKey_eq_none_of_not_contains {k : String} {kvs : List (String × Json)}
    (h : containsKey k kvs = false) : lookupKey k kvs = none := by
  induction kvs with
  | nil => rfl
  | cons p rest ih =>
    obtain ⟨k', w⟩ := p
    unfold containsKey at h
    simp only [List.any_cons, Bool.or_eq_false_iff] at h
    have h1 : k' ≠ k := fun he => by simp [he] at h
    simp only [lookupKey, if_neg h1]
    exact ih (by unfold containsKey; exact h.2)

theorem lookupKey_map_rep_version {v : String} {kvs : List (String × Json)}
    (h : containsKey "version" kvs = true) :
    lookupKey "version" (kvs.map (repVersion v)) = some (Json.jstr v) := by
  induction kvs with
  | nil => simp [containsKey] at h
  | cons p rest ih =>
    obtain ⟨k', w⟩ := p
    by_cases hk : k' = "version"
    · subst hk
      simp [repVersion, lookupKey]
    · unfold containsKey at h
      simp only [List.any_cons] at h
      have h2 : containsKey "version" rest = true := by
        unfold containsKey
        rcases Bool.or_eq_true_iff.1 h with h' | h'
        · exact absurd (eq_of_beq h') hk
        · exact h'
      have hbeq : (k' == "version") = false := by
        simpa using hk
      have hrep : repVersion v (k', w) = (k', w) := by
        simp [repVersion, hbeq]
      rw [List.map_cons, hrep]
      have hstep : lookupKey "version" ((k', w) :: rest.map (repVersion v)) =
          lookupKey "version" (rest.map (repVersion v)) := by
        simp [lookupKey, hk]
      rw [hstep]
      exact ih h2

theorem lookupKey_map_rep_other {v k : String} (hk : k ≠ "version")
    (kvs : List (String × Json)) :
    lookupKey k (kvs.map (repVersion v)) = lookupKey k kvs := by
  induction kvs with
  | nil => rfl
  | cons p rest ih =>
    obtain ⟨k', w⟩ := p
    by_cases hv : k' = "version"
    · subst hv
      have h1 : ¬("version" : String) = k := fun he => hk he.symm
      simp [repVersion, lookupKey, h1, ih]
    · have hbeq : (k' == "version") = false := by simpa using hv
      have hrep : repVersion v (k', w) = (k', w) := by simp [repVersion, hbeq]
      rw [List.map_cons, hrep]
      by_cases he : k' = k
      · simp [lookupKey, he]
      · simp [lookupKey, he, ih]

theorem lookupKey_setKvs_version (kvs : List (String × Json)) (v : String) :
    lookupKey "version" (setKvs kvs v) = some (Json.jstr v) := by
  unfold setKvs
  by_cases h : containsKey "version" kvs
  · simp only [h, if_true]
    exact lookupKey_map_rep_version h
  · simp only [Bool.not_eq_true] at h
    simp only [h, Bool.false_eq_true, if_false]
    rw [lookupKey_append, lookupKey_eq_none_of_not_contains h]
    simp [lookupKey]

theorem lookupKey_setKvs_other {k : String} (hk : k ≠ "version")
    (kvs : List (String × Json)) (v : String) :
    lookupKey k (setKvs kvs v) = lookupKey k kvs := by
  unfold setKvs
  by_cases h : containsKey "version" kvs
  · simp only [h, if_true]
    exact lookupKey_map_rep_other hk kvs
  · simp only [Bool.not_eq_true] at h
    simp only [h, Bool.false_eq_true, if_false]
    rw [lookupKey_append]
    have hne : ¬("version" : String) = k := fun he => hk he.symm
    have : lookupKey k [("version", Json.jstr v)] = none := by
      simp [lookupKey, hne]
    rw [this]
    cases lookupKey k kvs <;> simp

theorem map_rep_of_not_contains {v : String} {kvs : List (String × Json)}
    (h : containsKey "version" kvs = false) : kvs.map (repVersion v) = kvs := by
  induction kvs with
  | nil => rfl
  | cons p rest ih =>
    unfold containsKey at h
    simp only [List.any_cons, Bool.or_eq_false_iff] at h
    have hrep : repVersion v p = p := by simp [repVersion, h.1]
    simp only [List.map_cons, hrep]
    exact congrArg _ (ih (by unfold containsKey; exact h.2))

theorem setKvs_idem (kvs : List (String × Json)) (v : String) :
    setKvs (setKvs kvs v) v = setKvs kvs v := by
  by_cases h : containsKey "version" kvs
  · have h1 : setKvs kvs v = kvs.map (repVersion v) := by simp [setKvs, h]
    have h2 : containsKey "version" (kvs.map (repVersion v)) = true := by
      rw [containsKey_map_rep]; exact h
    rw [h1]
    simp only [setKvs, h2, if_true]
    rw [List.map_map]
    exact List.map_congr_left fun p _ => by
      simp only [Function.comp_apply]
      exact repVersion_idem v p
  · simp only [Bool.not_eq_true] at h
    have h1 : setKvs kvs v = kvs ++ [("version", Json.jstr v)] := by
      simp [setKvs, h]
    have h2 : containsKey "version" (kvs ++ [("version", Json.jstr v)]) = true := by
      unfold containsKey
      simp
    rw [h1]
    simp only [setKvs, h2, if_true, List.map_append]
    rw [map_rep_of_not_contains h]
    simp [repVersion]

theorem update_package_json_idem {j j2 : Json} {v : String}
    (h : update_package_json j v = some j2) : update_package_json j2 v = some j2 := by
  cases j with
  | jobj kvs =>
    simp only [update_package_json, Option.some.injEq] at h
    subst h
    simp [update_package_json, setKvs_idem]
  | jnull => simp [update_package_json] at h
  | jbool b => simp [update_package_json] at h
  | jnum n => simp [update_package_json] at h
  | jstr s => simp [update_package_json] at h
  | jarr xs => simp [update_package_json] at h

/-! ### Characterization of the version-line pattern match -/

theorem versionLit_no_space_getElem :
    ∀ i, i < 7 → versionLit.getD i 'x' ≠ ' ' := by decide

/-- A `key = "value"` line for a space-free key other than `version` is never
matched by the pattern. -/
theorem rexMatch_other_key (k val : String) (hk : k ≠ "version") (hsp : ' ' ∉ k.toList) :
    rexMatch (mkKvLine k val) = none := by
  have hfail : versionLit.isPrefixOf (mkKvLine k val) = false := by
    rw [Bool.eq_false_iff]
    intro hpref
    have hpre : versionLit <+: mkKvLine k val := List.isPrefixOf_iff_prefix.1 hpref
    unfold mkKvLine at hpre
    rw [List.append_assoc, List.append_assoc] at hpre
    by_cases hlen : versionLit.length ≤ k.toList.length
    · have hkpre : versionLit <+: k.toList :=
        List.prefix_of_prefix_length_le hpre (List.prefix_append _ _) hlen
      have : ' ' ∈ k.toList := hkpre.sublist.subset (by decide)
      exact hsp this
    · push_neg at hlen
      have hkpre : k.toList <+: versionLit :=
        List.prefix_of_prefix_length_le (List.prefix_append _ _) hpre (Nat.le_of_lt hlen)
      have hle7 : k.toList.length ≤ 7 := by
        by_contra h8
        push_neg at h8
        have htake0 : k.toList = versionLit.take k.toList.length :=
          List.prefix_iff_eq_take.1 hkpre
        have h11 : k.toList.length < 11 := by
          have hv11 : versionLit.length = 11 := by decide
          omega
        apply hsp
        rw [htake0]
        set n := k.toList.length with hn
        interval_cases n <;> decide
      by_cases h7 : k.toList.length = 7
      · have htake : k.toList = versionLit.take k.toList.length :=
          List.prefix_iff_eq_take.1 hkpre
        rw [h7] at htake
        have : k.toList = "version".toList := htake
        exact hk (by cases k; cases this; rfl)
      · obtain ⟨u, hu⟩ := hpre
        have htake : k.toList = versionLit.take k.toList.length :=
          List.prefix_iff_eq_take.1 hkpre
        have hsplit : versionLit =
            k.toList ++ versionLit.drop k.toList.length := by
          conv_lhs => rw [← List.take_append_drop k.toList.length versionLit, ← htake]
        rw [hsplit, List.append_assoc] at hu
        have hteq : versionLit.drop k.toList.length ++ u =
            " = \"".toList ++ (val.toList ++ ['"', '\n']) :=
          List.append_cancel_left hu
        have hlt : k.toList.length < versionLit.length := by
          simpa using hlen
        have hdropc : versionLit.drop k.toList.length =
            versionLit[k.toList.length] :: versionLit.drop (k.toList.length + 1) :=
          List.drop_eq_getElem_cons hlt
        rw [hdropc, List.cons_append] at hteq
        have hteq2 : versionLit[k.toList.length] :: (versionLit.drop (k.toList.length + 1) ++ u) =
            ' ' :: ("= \"".toList ++ (val.toList ++ ['"', '\n'])) := hteq
        have hhead : versionLit[k.toList.length] = ' ' := by
          injection hteq2
        have hne : versionLit[k.toList.length] ≠ ' ' := by
          have h7lt : k.toList.length < 7 := by omega
          have := versionLit_no_space_getElem k.toList.length h7lt
          rwa [List.getD_eq_getElem?_getD, List.getElem?_eq_getElem hlt,
            Option.getD_some] at this
        exact hne hhead
  unfold rexMatch
  rw [hfail]
  simp

/-- A well-formed version line `version = "<x>"` (nonempty `x` with no
whitespace and no quote) is matched with group exactly `x`. -/
theorem rexMatch_versionLine (x : List Char) (hne : x ≠ [])
    (hx : ∀ c ∈ x, isPySpace c = false ∧ c ≠ '"') :
    rexMatch (versionLit ++ x ++ ['"', '\n']) = some x := by
  have hpref : versionLit.isPrefixOf (versionLit ++ (x ++ ['"', '\n'])) = true :=
    List.isPrefixOf_iff_prefix.2 ⟨x ++ ['"', '\n'], rfl⟩
  unfold rexMatch
  rw [List.append_assoc, hpref]
  simp only [if_true, List.drop_left]
  have htw : (x ++ ['"', '\n']).takeWhile (fun c => !isPySpace c) = x ++ ['"'] := by
    rw [List.takeWhile_append_of_pos (by
      intro a ha
      simp [(hx a ha).1])]
    rfl
  rw [htw]
  have hrev : (x ++ ['"']).reverse = '"' :: x.reverse := by simp
  have hfind : lastQuoteIdx (x ++ ['"']) = some x.length := by
    unfold lastQuoteIdx
    rw [hrev]
    simp only [List.findIdx?_cons]
    norm_num
  rw [hfind]
  have hlen : 1 ≤ x.length := List.length_pos.2 hne
  show (if 1 ≤ x.length then some ((x ++ ['"']).take x.length) else none) = some x
  rw [if_pos hlen, List.take_left]

/-- `findSome?` returns the image of the first element on which `f` fires. -/
theorem findSome?_first {α β : Type} (f : α → Option β) (pre : List α) (l : α)
    (post : List α) (g : β) (hpre : ∀ l' ∈ pre, f l' = none) (hl : f l = some g) :
    (pre ++ l :: post).findSome? f = some g := by
  induction pre with
  | nil =>
    simp only [List.nil_append, List.findSome?_cons, hl]
  | cons p ps ih =>
    have hp : f p = none := hpre p (List.mem_cons_self p ps)
    simp only [List.cons_append, List.findSome?_cons, hp]
    exact ih fun l' hl' => hpre l' (List.mem_cons_of_mem p hl')

/-! ### The orchestration pipeline -/

theorem updateJsonsAux_ok {v : String} {js : List Json} (h : ∀ j ∈ js, isObj j = true) :
    (updateJsonsAux v js).2.2 = true := by
  induction js with
  | nil => rfl
  | cons j rest ih =>
    have hj : isObj j = true := h j (List.mem_cons_self j rest)
    have hsome : ∃ j2, update_package_json j v = some j2 := by
      cases j with
      | jobj kvs => exact ⟨_, rfl⟩
      | jnull => simp [isObj] at hj
      | jbool b => simp [isObj] at hj
      | jnum n => simp [isObj] at hj
      | jstr s => simp [isObj] at hj
      | jarr xs => simp [isObj] at hj
    obtain ⟨j2, hj2⟩ := hsome
    simp only [updateJsonsAux, hj2]
    exact ih fun j2 hj2 => h j2 (List.mem_cons_of_mem _ hj2)

/-! ### Claim theorems -/

/-- C1: if the two primary manifests report different version strings and the
requested version has at least two dots, the run aborts with VersionMismatch,
the filesystem state is returned unchanged, and the event trace holds only the
two manifest reads (no file is written). -/
theorem toml_mismatch_aborts_run (fs : FS) (v : String) (today : List Char)
    (a b : List Char) (h2 : 2 ≤ countDots v)
    (h0 : read_toml_version (fs.tomls.getD 0 []) = some a)
    (h1 : read_toml_version (fs.tomls.getD 1 []) = some b) (hab : a ≠ b) :
    runMain fs v today =
      (some RunError.versionMismatch, fs, [Ev.readTomlFile 0, Ev.readTomlFile 1]) := by
  unfold runMain
  rw [if_neg (by omega)]
  simp only [h0, h1]
  rw [if_neg hab]

theorem toml_mismatch_aborts_run_w :
    2 ≤ countDots "1.2.3" ∧
    read_toml_version
        ((FS.mk [("version = \"1.0.0\"\n").toList, ("version = \"2.0.0\"\n").toList]
          [] [] none).tomls.getD 0 []) = some ("1.0.0").toList ∧
    read_toml_version
        ((FS.mk [("version = \"1.0.0\"\n").toList, ("version = \"2.0.0\"\n").toList]
          [] [] none).tomls.getD 1 []) = some ("2.0.0").toList ∧
    runMain
        (FS.mk [("version = \"1.0.0\"\n").toList, ("version = \"2.0.0\"\n").toList]
          [] [] none) "1.2.3" ("2024-01-01").toList =
      (some RunError.versionMismatch,
        FS.mk [("version = \"1.0.0\"\n").toList, ("version = \"2.0.0\"\n").toList]
          [] [] none,
        [Ev.readTomlFile 0, Ev.readTomlFile 1]) :=
  ⟨by decide, by decide, by decide,
    toml_mismatch_aborts_run _ "1.2.3" _ ("1.0.0").toList ("2.0.0").toList
      (by decide) (by decide) (by decide) (by decide)⟩

/-- C7: a new-version string with fewer than two dots aborts the run with
InvalidVersionFormat immediately: the filesystem is unchanged and the event
trace is empty, so the changelog (and every other file) is never even read. -/
theorem invalid_format_aborts_early (fs : FS) (v : String) (today : List Char)
    (h : countDots v < 2) :
    runMain fs v today = (some RunError.invalidVersionFormat, fs, []) := by
  unfold runMain
  rw [if_pos h]

theorem invalid_format_aborts_early_w :
    countDots "1.25" < 2 ∧
    runMain (FS.mk [] [] [] none) "1.25" ("2024-01-01").toList =
      (some RunError.invalidVersionFormat, FS.mk [] [] [] none, []) :=
  ⟨by decide, invalid_format_aborts_early _ "1.25" _ (by decide)⟩

/-- C4 (counterexample): with a one-dot version and two disagreeing primary
manifests, the run fails with InvalidVersionFormat, not VersionMismatch: the
format validation precedes the consistency check. -/
theorem dots_before_mismatch_cex :
    read_toml_version (("version = \"1.0.0\"\n").toList) = some ("1.0.0").toList ∧
    read_toml_version (("version = \"2.0.0\"\n").toList) = some ("2.0.0").toList ∧
    ("1.0.0").toList ≠ ("2.0.0").toList ∧
    (runMain
        (FS.mk [("version = \"1.0.0\"\n").toList, ("version = \"2.0.0\"\n").toList]
          [] [] none) "1.5" ("2024-01-01").toList).1 = some RunError.invalidVersionFormat ∧
    some RunError.invalidVersionFormat ≠ some RunError.versionMismatch := by
  refine ⟨by decide, by decide, by decide, by decide, by decide⟩

/-- C4 (amended): the dot-count validation runs before the primary-manifest
consistency check; when the new version has fewer than two dots the run fails
with InvalidVersionFormat even if the two primary manifests disagree, leaving
the filesystem untouched with an empty event trace. -/
theorem format_check_precedes_mismatch (fs : FS) (v : String) (today : List Char)
    (a b : List Char) (hd : countDots v < 2)
    (h0 : read_toml_version (fs.tomls.getD 0 []) = some a)
    (h1 : read_toml_version (fs.tomls.getD 1 []) = some b) (hab : a ≠ b) :
    runMain fs v today = (some RunError.invalidVersionFormat, fs, []) := by
  unfold runMain
  rw [if_pos hd]

theorem format_check_precedes_mismatch_w :
    countDots "1.5" < 2 ∧
    read_toml_version (("version = \"1.0.0\"\n").toList) = some ("1.0.0").toList ∧
    read_toml_version (("version = \"2.0.0\"\n").toList) = some ("2.0.0").toList ∧
    ("1.0.0").toList ≠ ("2.0.0").toList ∧
    runMain
        (FS.mk [("version = \"1.0.0\"\n").toList, ("version = \"2.0.0\"\n").toList]
          [] [] none) "1.5" ("2024-01-01").toList =
      (some RunError.invalidVersionFormat,
        FS.mk [("version = \"1.0.0\"\n").toList, ("version = \"2.0.0\"\n").toList]
          [] [] none, []) :=
  ⟨by decide, by decide, by decide, by decide,
    format_check_precedes_mismatch _ "1.5" _ ("1.0.0").toList ("2.0.0").toList
      (by decide) (by decide) (by decide) (by decide)⟩

/-- C6: for agreeing primary manifests and a well-formed new version, a
non-"alpha" version whose exact dated entry is absent from the changelog
aborts the run with MissingChangelogEntry, leaving the filesystem unchanged
and writing nothing; a version containing "alpha" skips the changelog read
entirely and proceeds to rewrite every key-value manifest. -/
theorem changelog_gate_and_alpha_exempt (fs : FS) (v : String) (today : List Char)
    (a : List Char) (h2 : 2 ≤ countDots v)
    (h0 : read_toml_version (fs.tomls.getD 0 []) = some a)
    (h1 : read_toml_version (fs.tomls.getD 1 []) = some a) :
    (alphaIn v = false → changelogHas fs.changelog v today = false →
      runMain fs v today =
        (some RunError.missingChangelogEntry, fs,
          [Ev.readTomlFile 0, Ev.readTomlFile 1, Ev.readChangelog])) ∧
    (alphaIn v = true → (∀ j ∈ fs.jsons, isObj j = true) →
      (runMain fs v today).1 = none ∧
      Ev.readChangelog ∉ (runMain fs v today).2.2 ∧
      (runMain fs v today).2.1.tomls = fs.tomls.map (fun c => replace_toml_version c v)) := by
  have hnotlt : ¬ countDots v < 2 := by omega
  constructor
  · intro hna hcl
    unfold runMain
    rw [if_neg hnotlt]
    simp only [h0, h1, if_pos rfl, hna, hcl]
    simp
  · intro hal hobj
    have hok : (updateJsonsAux v fs.jsons).2.2 = true := updateJsonsAux_ok hobj
    unfold runMain
    rw [if_neg hnotlt]
    simp only [h0, h1, if_pos rfl, hal, if_true]
    unfold proceedWrites
    simp only [hok, if_true]
    simp

theorem changelog_gate_and_alpha_exempt_w :
    2 ≤ countDots "1.2.3" ∧ 2 ≤ countDots "1.2.3-alpha1" ∧
    alphaIn "1.2.3" = false ∧ alphaIn "1.2.3-alpha1" = true ∧
    changelogHas [] "1.2.3" ("2024-01-01").toList = false ∧
    runMain (FS.mk [("version = \"1.0.0\"\n").toList, ("version = \"1.0.0\"\n").toList]
        [Json.jobj []] [] none) "1.2.3" ("2024-01-01").toList =
      (some RunError.missingChangelogEntry,
        FS.mk [("version = \"1.0.0\"\n").toList, ("version = \"1.0.0\"\n").toList]
          [Json.jobj []] [] none,
        [Ev.readTomlFile 0, Ev.readTomlFile 1, Ev.readChangelog]) ∧
    ((runMain (FS.mk [("version = \"1.0.0\"\n").toList, ("version = \"1.0.0\"\n").toList]
        [Json.jobj []] [] none) "1.2.3-alpha1" ("2024-01-01").toList).1 = none ∧
      Ev.readChangelog ∉
        (runMain (FS.mk [("version = \"1.0.0\"\n").toList, ("version = \"1.0.0\"\n").toList]
          [Json.jobj []] [] none) "1.2.3-alpha1" ("2024-01-01").toList).2.2 ∧
      (runMain (FS.mk [("version = \"1.0.0\"\n").toList, ("version = \"1.0.0\"\n").toList]
          [Json.jobj []] [] none) "1.2.3-alpha1" ("2024-01-01").toList).2.1.tomls =
        [("version = \"1.0.0\"\n").toList, ("version = \"1.0.0\"\n").toList].map
          (fun c => replace_toml_version c "1.2.3-alpha1")) :=
  ⟨by decide, by decide, by decide, by decide, by decide,
    (changelog_gate_and_alpha_exempt _ "1.2.3" _ ("1.0.0").toList
      (by decide) (by decide) (by decide)).1 (by decide) (by decide),
    (changelog_gate_and_alpha_exempt _ "1.2.3-alpha1" _ ("1.0.0").toList
      (by decide) (by decide) (by decide)).2 (by decide) (by decide)⟩

/-- C2 (counterexample): on a file with two matching version lines, the rewrite
replaces both of them, not only the first — the output differs from the
"first line only" prediction of the claim. -/
theorem replace_all_matching_cex :
    replace_toml_version ("version = \"1.0.0\"\nversion = \"2.0.0\"\n").toList "9.9.9" =
      ("version = \"9.9.9\"\nversion = \"9.9.9\"\n").toList ∧
    ("version = \"9.9.9\"\nversion = \"9.9.9\"\n").toList ≠
      ("version = \"9.9.9\"\nversion = \"2.0.0\"\n").toList := by
  refine ⟨by decide, by decide⟩

/-- C2 (amended): for a new version without a newline, re-reading the rewritten
file yields exactly as many lines as the input, where every line matching the
version pattern — not only the first — has been replaced by the canonical
rendering, and every non-matching line is copied verbatim. -/
theorem replace_toml_replaces_every_match (content : List Char) (v : String)
    (hv : '\n' ∉ v.toList) :
    (splitLines (replace_toml_version content v)).length = (splitLines content).length ∧
    ∀ i, (hi : i < (splitLines content).length) →
      ((rexMatch ((splitLines content)[i])).isSome = false →
        (splitLines (replace_toml_version content v))[i]? =
          some ((splitLines content)[i])) ∧
      ((rexMatch ((splitLines content)[i])).isSome = true →
        (splitLines (replace_toml_version content v))[i]? = some (canonLine v)) := by
  have hmap := splitLines_replace content hv
  refine ⟨by rw [hmap, List.length_map], ?_⟩
  intro i hi
  constructor
  · intro hm
    rw [hmap, List.getElem?_map, List.getElem?_eq_getElem hi]
    simp [replaceLine, hm]
  · intro hm
    rw [hmap, List.getElem?_map, List.getElem?_eq_getElem hi]
    simp [replaceLine, hm]

theorem replace_toml_replaces_every_match_w :
    ('\n' ∉ ("9.9.9" : String).toList) ∧
    (splitLines (replace_toml_version
        ("version = \"1.0.0\"\nname = \"x\"\n").toList "9.9.9")).length =
      (splitLines ("version = \"1.0.0\"\nname = \"x\"\n").toList).length :=
  ⟨by decide,
    (replace_toml_replaces_every_match ("version = \"1.0.0\"\nname = \"x\"\n").toList
      "9.9.9" (by decide)).1⟩

/-- C5 (counterexample): with a version string containing a newline, the
key-value rewrite is not idempotent — the second run produces different bytes
than the first. -/
theorem writer_idem_newline_cex :
    replace_toml_version
        (replace_toml_version ("version = \"1.0.0\"\n").toList "x\"\ny") "x\"\ny" ≠
      replace_toml_version ("version = \"1.0.0\"\n").toList "x\"\ny" := by decide

/-- C5 (amended): for every version string without a newline the key-value
rewrite is byte-level idempotent on any file content, and the JSON update is
idempotent on documents for every version string, so its rendered file bytes
are identical on a second run. -/
theorem writer_idempotent_no_newline (content : List Char) (v : String) (j j2 : Json)
    (hv : '\n' ∉ v.toList) (hj : update_package_json j v = some j2) :
    replace_toml_version (replace_toml_version content v) v =
      replace_toml_version content v ∧
    update_package_json j2 v = some j2 ∧
    (update_package_json j2 v).map renderJsonFile = some (renderJsonFile j2) := by
  refine ⟨?_, update_package_json_idem hj, ?_⟩
  · show joinList ((splitLines (replace_toml_version content v)).map (replaceLine v)) = _
    rw [splitLines_replace content hv, List.map_map]
    have h2 : replaceLine v ∘ replaceLine v = replaceLine v :=
      funext (replaceLine_idem v)
    rw [h2]
    rfl
  · rw [update_package_json_idem hj]
    rfl

theorem writer_idempotent_no_newline_w :
    ('\n' ∉ ("1.2.3" : String).toList) ∧
    update_package_json (Json.jobj []) "1.2.3" =
      some (Json.jobj [("version", Json.jstr "1.2.3")]) ∧
    replace_toml_version
        (replace_toml_version ("version = \"1.0.0\"\n").toList "1.2.3") "1.2.3" =
      replace_toml_version ("version = \"1.0.0\"\n").toList "1.2.3" :=
  ⟨by decide, by rfl,
    (writer_idempotent_no_newline ("version = \"1.0.0\"\n").toList "1.2.3"
      (Json.jobj []) (Json.jobj [("version", Json.jstr "1.2.3")])
      (by decide) (by rfl)).1⟩

/-- C3 (counterexample): the JSON update writes the new content directly to the
original path without a temporary-file-and-rename step, while the key-value
writer does perform the atomic swap — the claim's "atomic swap" does not hold
for the structured-document writer. -/
theorem update_json_not_atomic_cex :
    (updateJsonOps "package.json"
        (Json.jobj [("name", Json.jstr "dc"), ("version", Json.jstr "1.0.0")])
        "2.0.0").map (isAtomicSwapTo "package.json") = some false ∧
    isAtomicSwapTo "Cargo.toml"
      (replaceTomlOps "Cargo.toml" ("version = \"1.0.0\"\n").toList "2.0.0") = true := by
  refine ⟨by decide, by decide⟩

/-- C3 (amended): the JSON update sets the version field, preserves the value
of every other top-level field (the document is re-serialized canonically),
and performs a single direct in-place write of the rendered document — not an
atomic temporary-file swap. -/
theorem update_json_inplace_preserves_fields (p : String) (j j2 : Json) (v : String)
    (hj : update_package_json j v = some j2) :
    (∀ k : String, k ≠ "version" → jsonField k j2 = jsonField k j) ∧
    jsonField "version" j2 = some (Json.jstr v) ∧
    updateJsonOps p j v = some [FileOp.writeFile p (renderJsonFile j2)] ∧
    isAtomicSwapTo p [FileOp.writeFile p (renderJsonFile j2)] = false := by
  cases j with
  | jobj kvs =>
    simp only [update_package_json, Option.some.injEq] at hj
    subst hj
    refine ⟨?_, ?_, ?_, rfl⟩
    · intro k hk
      unfold jsonField
      exact lookupKey_setKvs_other hk kvs v
    · unfold jsonField
      exact lookupKey_setKvs_version kvs v
    · rfl
  | jnull => simp [update_package_json] at hj
  | jbool b => simp [update_package_json] at hj
  | jnum n => simp [update_package_json] at hj
  | jstr s => simp [update_package_json] at hj
  | jarr xs => simp [update_package_json] at hj

theorem update_json_inplace_preserves_fields_w :
    update_package_json (Json.jobj [("name", Json.jstr "dc")]) "2.0.0" =
      some (Json.jobj [("name", Json.jstr "dc"), ("version", Json.jstr "2.0.0")]) ∧
    jsonField "version"
        (Json.jobj [("name", Json.jstr "dc"), ("version", Json.jstr "2.0.0")]) =
      some (Json.jstr "2.0.0") :=
  ⟨by rfl,
    (update_json_inplace_preserves_fields "package.json"
      (Json.jobj [("name", Json.jstr "dc")])
      (Json.jobj [("name", Json.jstr "dc"), ("version", Json.jstr "2.0.0")])
      "2.0.0" (by rfl)).2.1⟩

/-- C8: the key-value reader never matches a `key = "value"` line for a
space-free key other than `version`; it returns the captured group of the
first matching line in file order; it fails (VersionNotFound) when no line
matches; and on a well-formed `version = "<x>"` line the captured group is
exactly the quoted value. -/
theorem read_toml_first_match_spec :
    (∀ k val : String, k ≠ "version" → ' ' ∉ k.toList →
      rexMatch (mkKvLine k val) = none) ∧
    (∀ (content : List Char) (pre post : List (List Char)) (l g : List Char),
      splitLines content = pre ++ l :: post →
      (∀ l2 ∈ pre, rexMatch l2 = none) → rexMatch l = some g →
      read_toml_version content = some g) ∧
    (∀ content : List Char, (∀ l ∈ splitLines content, rexMatch l = none) →
      read_toml_version content = none) ∧
    (∀ x : List Char, x ≠ [] → (∀ c ∈ x, isPySpace c = false ∧ c ≠ '"') →
      rexMatch (versionLit ++ x ++ ['"', '\n']) = some x) := by
  refine ⟨rexMatch_other_key, ?_, ?_, rexMatch_versionLine⟩
  · intro content pre post l g hsplit hpre hl
    unfold read_toml_version regex_matches
    rw [hsplit]
    exact findSome?_first rexMatch pre l post g hpre hl
  · intro content h
    unfold read_toml_version regex_matches
    exact List.findSome?_eq_none_iff.2 h

theorem read_toml_first_match_spec_w :
    rexMatch (mkKvLine "name" "deltachat") = none ∧
    read_toml_version (("name = \"deltachat\"\nversion = \"1.0.0\"\n").toList) =
      some ("1.0.0").toList ∧
    read_toml_version (("name = \"deltachat\"\n").toList) = none ∧
    rexMatch (versionLit ++ ("1.0.0").toList ++ ['"', '\n']) = some ("1.0.0").toList :=
  ⟨read_toml_first_match_spec.1 "name" "deltachat" (by decide) (by decide),
    read_toml_first_match_spec.2.1 (("name = \"deltachat\"\nversion = \"1.0.0\"\n").toList)
      [("name = \"deltachat\"\n").toList] [] (("version = \"1.0.0\"\n").toList)
      (("1.0.0").toList) (by decide) (by decide) (by decide),
    read_toml_first_match_spec.2.2.1 (("name = \"deltachat\"\n").toList) (by decide),
    read_toml_first_match_spec.2.2.2 (("1.0.0").toList) (by decide) (by decide)⟩

/-- C9: on a file with no matching version line the key-value rewrite succeeds
and leaves the content byte-for-byte unchanged (the new version is silently
not written), while the reader fails with VersionNotFound on the same file. -/
theorem replace_toml_no_match_noop (content : List Char) (v : String)
    (h : ∀ l ∈ splitLines content, rexMatch l = none) :
    replace_toml_version content v = content ∧ read_toml_version content = none := by
  constructor
  · unfold replace_toml_version
    have h2 : (splitLines content).map (replaceLine v) = (splitLines content).map id :=
      List.map_congr_left fun l hl => by simp [replaceLine, h l hl]
    rw [h2, List.map_id, joinList_splitLines]
  · unfold read_toml_version regex_matches
    exact List.findSome?_eq_none_iff.2 h

theorem replace_toml_no_match_noop_w :
    (∀ l ∈ splitLines ("name = \"deltachat\"\nedition = \"2021\"\n").toList,
      rexMatch l = none) ∧
    replace_toml_version ("name = \"deltachat\"\nedition = \"2021\"\n").toList "1.2.3" =
      ("name = \"deltachat\"\nedition = \"2021\"\n").toList ∧
    read_toml_version ("name = \"deltachat\"\nedition = \"2021\"\n").toList = none :=
  ⟨by decide,
    (replace_toml_no_match_noop ("name = \"deltachat\"\nedition = \"2021\"\n").toList
      "1.2.3" (by decide)).1,
    (replace_toml_no_match_noop ("name = \"deltachat\"\nedition = \"2021\"\n").toList
      "1.2.3" (by decide)).2⟩

/-- C10: on a JSON object that lacks a "version" field the update succeeds and
appends a new "version" key holding the new version string, even though the
reader fails on the same document when looking the field up. -/
theorem update_json_inserts_missing_version (kvs : List (String × Json)) (v : String)
    (h : containsKey "version" kvs = false) :
    update_package_json (Json.jobj kvs) v =
      some (Json.jobj (kvs ++ [("version", Json.jstr v)])) ∧
    read_json_version (Json.jobj (kvs ++ [("version", Json.jstr v)])) =
      some (Json.jstr v) ∧
    read_json_version (Json.jobj kvs) = none := by
  refine ⟨?_, ?_, ?_⟩
  · simp [update_package_json, setKvs, h]
  · show lookupKey "version" (kvs ++ [("version", Json.jstr v)]) = some (Json.jstr v)
    rw [lookupKey_append, lookupKey_eq_none_of_not_contains h]
    simp [lookupKey]
  · unfold read_json_version
    exact lookupKey_eq_none_of_not_contains h

theorem update_json_inserts_missing_version_w :
    containsKey "version" [("name", Json.jstr "dc")] = false ∧
    update_package_json (Json.jobj [("name", Json.jstr "dc")]) "1.2.3" =
      some (Json.jobj [("name", Json.jstr "dc"), ("version", Json.jstr "1.2.3")]) :=
  ⟨by decide,
    (update_json_inserts_missing_version [("name", Json.jstr "dc")] "1.2.3"
      (by decide)).1⟩

end SetCoreVersion
